import Mathlib

/-!
Shallow embedding of src/elk/training/ccs_reporter.py: the CCS reporter
(loss composition, the two optimization drivers, fit orchestration with
multi-restart best-model selection, and the separability diagnostic).

External collaborators whose sources are not part of this unit (the torch
optimizers, the loss registry LOSSES, binary_cross_entropy, the auxiliary
Classifier, the roc_auc metric, the SpectralNorm unit-norm projector and
the per-group Normalizer) are abstracted as function parameters or
modelled from the specification, as noted at each definition.

Machine floats are modelled as rationals extended with the two infinities
and NaN; comparisons follow IEEE semantics (every comparison with NaN is
false), which is what drives the best-restart selection in fit.
Tensors are modelled as nested lists of rationals; the theorems carry
rectangularity hypotheses where torch shape semantics matter.
-/

namespace CcsEmbed

/-- Python exception kinds raised by the embedded code paths. -/
inductive PyErr where
  | valueError
  | runtimeError
  | indexError
  | assertionError
  | typeError
deriving DecidableEq, Repr

/-- A Python float: a rational extended with the two infinities and NaN. -/
inductive FVal where
  | fin (q : ℚ)
  | inf
  | neginf
  | nan
deriving DecidableEq, Repr

/-- IEEE-style strict less-than on floats: any comparison involving NaN is
false; this is the comparison used by the restart loop of fit. -/
def flt : FVal → FVal → Bool
  | FVal.fin a, FVal.fin b => decide (a < b)
  | FVal.fin _, FVal.inf => true
  | FVal.neginf, FVal.fin _ => true
  | FVal.neginf, FVal.inf => true
  | _, _ => false

/-- math.isfinite on the embedded floats. -/
def isfinite : FVal → Bool
  | FVal.fin _ => true
  | _ => false

/-- Python list indexing with a non-negative index: IndexError when the
index is out of range. -/
def pyGet {α : Type} (l : List α) (i : Nat) : Except PyErr α :=
  match l.get? i with
  | some a => Except.ok a
  | none => Except.error PyErr.indexError

/-- A 2-D tensor: a list of rows of rationals. -/
abbrev Mat := List (List ℚ)

/-- A 3-D tensor: a list of 2-D tensors. -/
abbrev Tens3 := List Mat

/-- Elementwise sigmoid on a 2-D tensor; the scalar sigmoid itself is an
external transcendental function and stays an abstract parameter. -/
def sigmoidMat (sig : ℚ → ℚ) (m : Mat) : Mat := m.map (fun r => r.map sig)

/-- The size of the trailing dimension of a rectangular 2-D tensor, read
off its first row (torch stores it as part of the shape). -/
def lastDimLen (m : Mat) : Nat := (m.getD 0 []).length

/-- Rectangularity of a 2-D tensor: n rows, each of length v.  This is the
shape information torch tensors carry intrinsically. -/
def Rect (m : Mat) (n v : Nat) : Prop :=
  m.length = n ∧ ∀ i, i < n → (m.getD i []).length = v

instance (m : Mat) (n v : Nat) : Decidable (Rect m n v) := by
  unfold Rect; infer_instance

/-! ## Loss composition: CcsReporter.loss and CcsReporter.lossm

The unsupervised terms come from the external loss registry and are
abstracted (unsupF, unsupmF), as is torch binary_cross_entropy (bceF)
and the scalar sigmoid (sig).  The control flow, the consensus
construction, the label broadcasting and flattening, and the blend by the
supervised weight are translated from the source. -/

/-- CcsReporter.loss (lines 240-282 of the source): the two-group loss
composer.  With labels, the consensus preds = p0.add(1 - p1).mul(0.5)
followed by squeeze(-1); labels are broadcast by
labels.repeat_interleave(preds.shape[1]) and preds flattened before the
binary cross-entropy; the result is alpha * bce + (1 - alpha) * loss.
When preds has trailing dimension 1 the squeeze makes it 1-D, and the
subsequent preds.shape[1] raises IndexError.  Without labels, a positive
supervised weight raises ValueError, otherwise the unsupervised loss is
returned. -/
def loss (alpha : ℚ) (sig : ℚ → ℚ) (bceF : List ℚ → List ℚ → ℚ)
    (unsupF : Mat → Mat → ℚ) (logit0 logit1 : Mat) (labels : Option (List ℚ)) :
    Except PyErr ℚ :=
  let l := unsupF logit0 logit1
  match labels with
  | some ys =>
    if logit0.length < ys.length then Except.error PyErr.assertionError
    else
      let p0 := sigmoidMat sig (logit0.take ys.length)
      let p1 := sigmoidMat sig (logit1.take ys.length)
      let preds := List.zipWith (List.zipWith (fun a b => (a + (1 - b)) * (1 / 2))) p0 p1
      if lastDimLen preds = 1 then Except.error PyErr.indexError
      else
        let v := lastDimLen preds
        let broadcastLabels := (ys.map (fun y => List.replicate v y)).flatten
        let flattenedPreds := preds.flatten
        let bceLoss := bceF flattenedPreds broadcastLabels
        Except.ok (alpha * bceLoss + (1 - alpha) * l)
  | none =>
    if 0 < alpha then Except.error PyErr.valueError else Except.ok l

/-- torch.stack(ps, -1) followed by torch.max along the last dimension
(lines 517-518 of the source): the elementwise maximum across the stacked
matrices.  torch.stack of an empty list raises, but the call site has
already indexed logits[0], so ps is nonempty there. -/
def stackMax (ps : List Mat) : Mat :=
  match ps with
  | [] => []
  | p :: rest => rest.foldl (fun acc q => List.zipWith (List.zipWith max) acc q) p

/-- CcsReporter.lossm (lines 488-531 of the source): the multi-group loss
composer.  With labels, logits[0] is indexed (IndexError on an empty
list), the label count is asserted against its row count, every group is
sigmoided on its first num_labels rows, and the consensus preds is the
elementwise maximum over the stacked groups; labels are broadcast by
repeat_interleave(preds.shape[1]) and preds flattened before the binary
cross-entropy; the result is alpha * bce + (1 - alpha) * loss.  Without
labels the behaviour matches CcsReporter.loss. -/
def lossm (alpha : ℚ) (sig : ℚ → ℚ) (bceF : List ℚ → List ℚ → ℚ)
    (unsupmF : List Mat → ℚ) (logits : List Mat) (labels : Option (List ℚ)) :
    Except PyErr ℚ :=
  let l := unsupmF logits
  match labels with
  | some ys =>
    match logits with
    | [] => Except.error PyErr.indexError
    | l0 :: _ =>
      if l0.length < ys.length then Except.error PyErr.assertionError
      else
        let ps := logits.map (fun lg => sigmoidMat sig (lg.take ys.length))
        let preds := stackMax ps
        let v := lastDimLen preds
        let broadcastLabels := (ys.map (fun y => List.replicate v y)).flatten
        let flattenedPreds := preds.flatten
        let bceLoss := bceF flattenedPreds broadcastLabels
        Except.ok (alpha * bceLoss + (1 - alpha) * l)
  | none =>
    if 0 < alpha then Except.error PyErr.valueError else Except.ok l

/-- The two-group consensus in the words of the specification: per element,
the mean of p0 and (1 - p1), where p is the sigmoid probability. -/
def consensusPair (sig : ℚ → ℚ) (l0 l1 : Mat) : Mat :=
  List.zipWith (fun r0 r1 => List.zipWith (fun a b => (sig a + (1 - sig b)) / 2) r0 r1) l0 l1

/-- Label broadcasting in the words of the specification: each label is
repeated across the trailing variant dimension of size v, then the result
is 1-D. -/
def broadcastAcrossVariants (v : Nat) (ys : List ℚ) : List ℚ :=
  (ys.map (fun y => List.replicate v y)).flatten

/-- The maximum of a starting value and a list of values, used to state
what an elementwise maximum across groups is. -/
def listMaxD (x : ℚ) (xs : List ℚ) : ℚ := xs.foldl max x

/-! ## Fit orchestration: CcsReporter.fit -/

/-- The Normalizer construction in CcsReporter.__init__ (lines 109-110):
num_norms = 4; one fresh Normalizer per index of range(num_norms).  The
Normalizer type itself is external, so a fresh instance is a parameter. -/
def initNorms {NS : Type} (freshN : NS) : List NS :=
  (List.range 4).map (fun _ => freshN)

/-- The first normalization loop of CcsReporter.fit (lines 435-437):
for i in range(4), self.norms[i].fit(x_tensors[i]), mutating norms[i].
Modelled from the spec: Normalizer.fit computes fresh running statistics
from its data tensor, overwriting prior statistics; the statistics
computation statOf is abstract since the Normalizer source is not part of
this unit.  Python list indexing raises IndexError out of range. -/
def fitNorms {NS : Type} (statOf : Tens3 → NS) (norms : List NS) (xs : List Tens3) :
    Except PyErr (List NS) :=
  (List.range 4).foldlM
    (fun ns i =>
      match pyGet ns i with
      | Except.error e => Except.error e
      | Except.ok _ =>
        match pyGet xs i with
        | Except.error e => Except.error e
        | Except.ok x => Except.ok (ns.set i (statOf x)))
    norms

/-- The second normalization loop of CcsReporter.fit (line 439):
x_tensors = [self.norms[i](x_tensors[i]) for i in range(len(x_tensors))].
Modelled from the spec: applying a fitted Normalizer transforms the input
using its statistics; the transform applyN is abstract. -/
def applyNorms {NS : Type} (applyN : NS → Tens3 → Tens3) (norms : List NS)
    (xs : List Tens3) : Except PyErr (List Tens3) :=
  (List.range xs.length).mapM
    (fun i =>
      match pyGet norms i with
      | Except.error e => Except.error e
      | Except.ok n =>
        match pyGet xs i with
        | Except.error e => Except.error e
        | Except.ok x => Except.ok (applyN n x))

/-- One comparison step of the restart loop of CcsReporter.fit (lines
465-467): if loss < best_loss, record the loss and a deep copy of the
parameter state.  Deep copying is value semantics here, so a snapshot is
simply the state value. -/
def bestStep {S : Type} (best : FVal × Option S) (o : FVal × S) : FVal × Option S :=
  if flt o.1 best.1 then (o.1, some o.2) else best

/-- The best (loss, snapshot) selection across all restarts, starting
from best_loss = torch.inf and an empty best state. -/
def selectBest {S : Type} (outcomes : List (FVal × S)) : FVal × Option S :=
  outcomes.foldl bestStep (FVal.inf, none)

/-- CcsReporter.fit (lines 402-473).  The argument xs lists the groups of
hiddens unbound along dimension 2, so xs.length is the size of that axis.
The per-restart work (reset_parameters, the optional PCA seeding, and the
torch optimization driver) involves external randomness and torch
optimizers, so each restart is abstracted by its observable outcome: the
loss the driver returned together with the parameter state it left
behind; outcomes lists these for the num_tries restarts in order.  After
the loop, a non-finite best loss raises RuntimeError; otherwise the best
snapshot is loaded (an empty snapshot loads nothing, keeping s0) and the
best loss returned. -/
def fit {NS S : Type} (statOf : Tens3 → NS) (applyN : NS → Tens3 → Tens3)
    (norms : List NS) (xs : List Tens3) (outcomes : List (FVal × S)) (s0 : S) :
    Except PyErr (FVal × S) :=
  match fitNorms statOf norms xs with
  | Except.error e => Except.error e
  | Except.ok ns =>
    match applyNorms applyN ns xs with
    | Except.error e => Except.error e
    | Except.ok _ =>
      let best := selectBest outcomes
      if isfinite best.1 then Except.ok (best.1, best.2.getD s0)
      else Except.error PyErr.runtimeError

/-! ## Optimization drivers -/

/-- CcsReporter.train_loop_adam (lines 339-360), with the torch machinery
abstracted: lossAt s is the value the loop assigns to loss at parameter
state s (self.loss(self(x_neg), self(x_pos), labels)), and stepF is one
AdamW optimizer step (zero_grad, backward, step) as a state transformer.
loss starts as torch.inf and is overwritten every epoch; the loop returns
the loss of the final epoch, after having applied that final step. -/
def train_loop_adam {S : Type} (lossAt : S → FVal) (stepF : S → S) :
    Nat → S → FVal × S
  | 0, s => (FVal.inf, s)
  | 1, s => (lossAt s, stepF s)
  | (n + 2), s => train_loop_adam lossAt stepF (n + 1) (stepF s)

/-- The squared Euclidean norm of one parameter tensor, param.norm() ** 2. -/
def sumSq (p : List ℚ) : ℚ := (p.map (fun x => x * x)).sum

/-- The explicit L2 regularizer accumulated inside the LBFGS closure
(lines 390-391 and 581-582): starting from 0.0, for every parameter add
weight_decay * param.norm() ** 2 / 2. -/
def l2Regularizer (wd : ℚ) (params : List (List ℚ)) : ℚ :=
  params.foldl (fun acc p => acc + wd * sumSq p / 2) 0

/-- One evaluation of the LBFGS closure at parameter state s: the first
component is the value written to the nonlocal loss cell (the
unregularized loss), the second is the value the closure returns to the
optimizer, the regularized loss on which backward was called. -/
def lbfgsClosure {S : Type} (lossAt : S → ℚ) (wd : ℚ)
    (paramsOf : S → List (List ℚ)) (s : S) : ℚ × ℚ :=
  let l := lossAt s
  (l, l + l2Regularizer wd (paramsOf s))

/-- CcsReporter.train_loop_lbfgs / trainm_loop_lbfgs (lines 362-399 and
555-590): loss = torch.inf; optimizer.step(closure); return float(loss).
The torch LBFGS optimizer is external; it is abstracted by the sequence
evalStates of parameter states at which it invokes the closure during the
single step call.  The returned value is the last value the closure wrote
to the nonlocal loss cell, torch.inf if the closure was never invoked. -/
def train_loop_lbfgs {S : Type} (lossAt : S → ℚ) (wd : ℚ)
    (paramsOf : S → List (List ℚ)) (evalStates : List S) : FVal :=
  evalStates.foldl (fun _cell s => FVal.fin (lbfgsClosure lossAt wd paramsOf s).1) FVal.inf

/-- The L2 penalty in the words of the specification: the sum over all
parameters of weight_decay times the squared parameter norm divided
by 2. -/
def l2PenaltySpec (wd : ℚ) (params : List (List ℚ)) : ℚ :=
  (params.map (fun p => wd * sumSq p / 2)).sum

/-! ## The multi-group driver loss evaluations (for the driver
interchangeability claim)

Python is dynamically typed, so the value passed to a torch module can be
a tensor or a plain Python list; the embedding makes that explicit. -/

/-- A Python value handed to a torch module: a tensor or a Python list of
tensors. -/
inductive PyV (T : Type) where
  | tensor (x : T)
  | pylist (xs : List T)

/-- The call of the unit-norm projector module on a Python value.
Modelled from the spec: the projector is a differentiable linear map,
callable tensor to tensor; a torch linear module invoked on a plain
Python list raises TypeError. -/
def projectorCall {T : Type} (normF : T → T) : PyV T → Except PyErr T
  | PyV.tensor x => Except.ok (normF x)
  | PyV.pylist _ => Except.error PyErr.typeError

/-- CcsReporter.forward on a Python argument (line 238):
self.probe(self.norm(x)).squeeze(-1).  The probe stack together with the
trailing squeeze is abstracted as probeSq, applied to the projector
output, which is a tensor whenever the projector call succeeded. -/
def forwardPy {T T2 : Type} (normF : T → T) (probeSq : T → T2) (v : PyV T) :
    Except PyErr T2 :=
  match projectorCall normF v with
  | Except.error e => Except.error e
  | Except.ok y => Except.ok (probeSq y)

/-- The loss evaluation performed each epoch by CcsReporter.trainm_loop_adam
(line 548): self.lossm(self(x_tensors), labels) - forward is invoked on
the whole Python list of group tensors, and lossm only on its result. -/
def trainmAdamEpochLoss {T T2 R : Type} (normF : T → T) (probeSq : T → T2)
    (lossmPy : PyV T2 → Except PyErr R) (xs : List T) : Except PyErr R :=
  match forwardPy normF probeSq (PyV.pylist xs) with
  | Except.error e => Except.error e
  | Except.ok out => lossmPy (PyV.tensor out)

/-- The loss evaluation performed inside the closure of
CcsReporter.trainm_loop_lbfgs (lines 575-576):
correct_tensors = [self(tense) for tense in x_tensors];
loss = self.lossm(correct_tensors, labels). -/
def trainmLbfgsClosureLoss {T T2 R : Type} (normF : T → T) (probeSq : T → T2)
    (lossmPy : PyV T2 → Except PyErr R) (xs : List T) : Except PyErr R :=
  match xs.mapM (fun x => forwardPy normF probeSq (PyV.tensor x)) with
  | Except.error e => Except.error e
  | Except.ok outs => lossmPy (PyV.pylist outs)

/-! ## Forward pass and the Platt-scaling parameters -/

/-- The learnable state built in CcsReporter.__init__: the two Platt
scaling scalars (bias, initialized to zero, and scale, initialized to
one), the four per-group Normalizers, the unit-norm projector parameters
and the probe stack parameters (the latter two abstract). -/
structure CcsParams (P N NS : Type) where
  bias : ℚ
  scale : ℚ
  norms : List NS
  normP : N
  probeP : P

/-- CcsReporter.forward (lines 236-238): self.probe(self.norm(x)).squeeze(-1).
The projector and the probe stack are abstracted as functions of their
parameter components; the squeeze drops the trailing dimension, which has
size one because the final probe layer has a single output unit. -/
def forward {P N NS : Type} (normF : N → Tens3 → Tens3) (probeF : P → Tens3 → Tens3)
    (th : CcsParams P N NS) (x : Tens3) : Mat :=
  (probeF th.probeP (normF th.normP x)).map (fun m => m.map (fun r => r.getD 0 0))

/-- The per-epoch loss evaluation of CcsReporter.train_loop_adam (line 356):
self.loss(self(x_neg), self(x_pos), labels). -/
def lossOnForward {P N NS : Type} (alpha : ℚ) (sig : ℚ → ℚ)
    (bceF : List ℚ → List ℚ → ℚ) (unsupF : Mat → Mat → ℚ)
    (normF : N → Tens3 → Tens3) (probeF : P → Tens3 → Tens3)
    (th : CcsParams P N NS) (xneg xpos : Tens3) (labels : Option (List ℚ)) :
    Except PyErr ℚ :=
  loss alpha sig bceF unsupF (forward normF probeF th xneg)
    (forward normF probeF th xpos) labels

/-- The loss evaluation of the trainm_loop_lbfgs closure (lines 575-576):
self.lossm([self(tense) for tense in x_tensors], labels). -/
def lossmOnForward {P N NS : Type} (alpha : ℚ) (sig : ℚ → ℚ)
    (bceF : List ℚ → List ℚ → ℚ) (unsupmF : List Mat → ℚ)
    (normF : N → Tens3 → Tens3) (probeF : P → Tens3 → Tens3)
    (th : CcsParams P N NS) (xs : List Tens3) (labels : Option (List ℚ)) :
    Except PyErr ℚ :=
  lossm alpha sig bceF unsupmF (xs.map (forward normF probeF th)) labels

/-! ## Separability diagnostic: CcsReporter.check_separability -/

/-- The number of entries of a tensor slice t[..., 0] for a 3-D tensor t,
equal to the flattened length of zeros_like(t[..., 0]). -/
def sizeBV (t : Tens3) : Nat := (t.map (fun m => m.length)).sum

/-- The pseudo-label vector of check_separability (lines 163-174):
torch.cat([zeros_like(a[..., 0]), ones_like(b[..., 0])]).flatten(). -/
def pseudoLabels (a b : Tens3) : List ℚ :=
  List.replicate (sizeBV a) 0 ++ List.replicate (sizeBV b) 1

/-- The validation predictions of check_separability (lines 183-186):
the auxiliary classifier, fitted on the flattened projected training
vectors against the training pseudo-labels with the configured weight
decay, applied to the flattened projected validation vectors, with the
trailing singleton dimension squeezed (the classifier emits one score per
row).  Classifier is external: clfFit and clfApply are abstract. -/
def pseudoPredsOf {C : Type} (normF : Tens3 → Tens3)
    (clfFit : Mat → List ℚ → ℚ → C) (clfApply : C → Mat → Mat) (wd : ℚ)
    (x0 x1 vx0 vx1 : Tens3) : List ℚ :=
  let n0 := normF x0
  let n1 := normF x1
  let m0 := normF vx0
  let m1 := normF vx1
  let clf := clfFit ((n0 ++ n1).flatten) (pseudoLabels n0 n1) wd
  (clfApply clf ((m0 ++ m1).flatten)).map (fun r => r.getD 0 0)

/-- CcsReporter.check_separability (lines 142-194): project both pairs,
fit the auxiliary classifier on pseudo-labels, and return 0.5 when no
validation prediction is nonzero (the edge case where the classifier
learned all-zero weights), otherwise the AUROC of the predictions against
the validation pseudo-labels.  The roc_auc metric is external and
abstract (aucF). -/
def check_separability {C : Type} (normF : Tens3 → Tens3)
    (clfFit : Mat → List ℚ → ℚ → C) (clfApply : C → Mat → Mat)
    (aucF : List ℚ → List ℚ → ℚ) (wd : ℚ) (x0 x1 vx0 vx1 : Tens3) : ℚ :=
  let preds := pseudoPredsOf normF clfFit clfApply wd x0 x1 vx0 vx1
  if preds.any (fun p => p != 0) then
    aucF (pseudoLabels (normF vx0) (normF vx1)) preds
  else (1 : ℚ) / 2

/-! ## Properties of the float order -/

theorem flt_irrefl (a : FVal) : flt a a = false := by
  cases a <;> simp [flt]

theorem flt_asymm {a b : FVal} (h : flt a b = true) : flt b a = false := by
  cases a <;> cases b <;> simp_all [flt, not_lt] <;> linarith

theorem flt_trans {a b c : FVal} (h1 : flt a b = true) (h2 : flt b c = true) :
    flt a c = true := by
  cases a <;> cases b <;> cases c <;> simp_all [flt] <;> linarith

theorem flt_notlt_trans {a b c : FVal} (h1 : flt a b = false) (h2 : flt c b = true) :
    flt a c = false := by
  cases a <;> cases b <;> cases c <;> simp_all [flt, not_lt] <;> linarith

theorem isfinite_iff {a : FVal} : isfinite a = true ↔ ∃ q : ℚ, a = FVal.fin q := by
  cases a <;> simp [isfinite]

/-! ## The best-restart selection invariant -/

theorem bestFold_spec {S : Type} (l : List (FVal × S)) :
    ∀ acc : FVal × Option S,
      (l.foldl bestStep acc = acc ∨ ∃ p ∈ l, l.foldl bestStep acc = (p.1, some p.2)) ∧
      (∀ p ∈ l, flt p.1 (l.foldl bestStep acc).1 = false) ∧
      (l.foldl bestStep acc = acc ∨ flt (l.foldl bestStep acc).1 acc.1 = true) := by
  induction l with
  | nil =>
    intro acc
    refine ⟨Or.inl rfl, ?_, Or.inl rfl⟩
    intro p hp; cases hp
  | cons o rest ih =>
    intro acc
    obtain ⟨ih1, ih2, ih3⟩ := ih (bestStep acc o)
    have hfold : (o :: rest).foldl bestStep acc = rest.foldl bestStep (bestStep acc o) := rfl
    refine ⟨?_, ?_, ?_⟩
    · rcases ih1 with heq | ⟨p, hp, hpe⟩
      · by_cases h : flt o.1 acc.1 = true
        · refine Or.inr ⟨o, by simp, ?_⟩
          rw [hfold, heq]; simp [bestStep, h]
        · left; rw [hfold, heq]; simp [bestStep, h]
      · exact Or.inr ⟨p, by simp [hp], by rw [hfold]; exact hpe⟩
    · intro p hp
      rcases List.mem_cons.mp hp with rfl | hp2
      · by_cases h : flt p.1 acc.1 = true
        · have hstep : bestStep acc p = (p.1, some p.2) := by simp [bestStep, h]
          rw [hstep] at ih3
          rcases ih3 with heq | hlt
          · rw [hfold, hstep, heq]; exact flt_irrefl _
          · rw [hfold, hstep]
            exact flt_asymm hlt
        · have hstep : bestStep acc p = acc := by simp [bestStep, h]
          have h0 : flt p.1 acc.1 = false := by simpa using h
          rw [hstep] at ih3
          rcases ih3 with heq | hlt
          · rw [hfold, hstep, heq]; exact h0
          · rw [hfold, hstep]; exact flt_notlt_trans h0 hlt
      · rw [hfold]; exact ih2 p hp2
    · by_cases h : flt o.1 acc.1 = true
      · have hstep : bestStep acc o = (o.1, some o.2) := by simp [bestStep, h]
        rw [hstep] at ih3
        rcases ih3 with heq | hlt
        · right; rw [hfold, hstep, heq]; exact h
        · right; rw [hfold, hstep]
          exact flt_trans hlt h
      · have hstep : bestStep acc o = acc := by simp [bestStep, h]
        rw [hstep] at ih3
        rcases ih3 with heq | hlt
        · left; rw [hfold, hstep, heq]
        · right; rw [hfold, hstep]; exact hlt

theorem selectBest_mem {S : Type} {outcomes : List (FVal × S)} {L : FVal} {st : S}
    (h : selectBest outcomes = (L, some st)) :
    (L, st) ∈ outcomes ∧ ∀ p ∈ outcomes, flt p.1 L = false := by
  obtain ⟨h1, h2, _⟩ := bestFold_spec outcomes (FVal.inf, none)
  unfold selectBest at h
  rcases h1 with heq | ⟨p, hp, hpe⟩
  · rw [h] at heq; simp at heq
  · rw [h] at hpe
    have hL : L = p.1 := congrArg Prod.fst hpe
    have hs : st = p.2 := by
      have h2s := congrArg Prod.snd hpe
      simpa using h2s
    constructor
    · rw [hL, hs]; exact hp
    · intro p2 hp2
      have := h2 p2 hp2
      rw [h] at this
      exact this

theorem selectBest_none_inf {S : Type} {outcomes : List (FVal × S)}
    (h : (selectBest outcomes).2 = none) : (selectBest outcomes).1 = FVal.inf := by
  obtain ⟨h1, _, _⟩ := bestFold_spec outcomes (FVal.inf, none)
  unfold selectBest at h ⊢
  rcases h1 with heq | ⟨p, hp, hpe⟩
  · rw [heq]
  · rw [hpe] at h; simp at h

/-- Inversion of a successful fit call: the best loss was finite and the
returned pair is exactly the best selection with its recorded snapshot. -/
theorem fit_ok_elim {NS S : Type} {statOf : Tens3 → NS} {applyN : NS → Tens3 → Tens3}
    {norms : List NS} {xs : List Tens3} {outcomes : List (FVal × S)} {s0 : S}
    {L : FVal} {st : S}
    (h : fit statOf applyN norms xs outcomes s0 = Except.ok (L, st)) :
    isfinite L = true ∧ selectBest outcomes = (L, some st) := by
  simp only [fit] at h
  split at h
  next e heq => cases h
  next ns heq =>
    split at h
    next e2 heq2 => cases h
    next ys heq2 =>
      split at h
      next hf =>
        have hinj := Except.ok.inj h
        cases hb2 : (selectBest outcomes).2 with
        | none =>
          have hinf := selectBest_none_inf hb2
          rw [hinf] at hf
          simp [isfinite] at hf
        | some st2 =>
          have hL : (selectBest outcomes).1 = L := by
            have := congrArg Prod.fst hinj; simpa using this
          have hst : st2 = st := by
            have h2s := congrArg Prod.snd hinj
            rw [hb2] at h2s
            simpa using h2s
          refine ⟨by rw [← hL]; exact hf, ?_⟩
          have hpair : selectBest outcomes =
              ((selectBest outcomes).1, (selectBest outcomes).2) := rfl
          rw [hpair, hL, hb2, hst]
      next hf => cases h

/-- Computation of the first normalization loop on four normalizers and at
least four groups. -/
theorem fitNorms_four {NS : Type} (statOf : Tens3 → NS) (n0 n1 n2 n3 : NS)
    (a b c d : Tens3) (rest : List Tens3) :
    fitNorms statOf [n0, n1, n2, n3] (a :: b :: c :: d :: rest) =
      Except.ok [statOf a, statOf b, statOf c, statOf d] := rfl

/-- Computation of the second normalization loop on four normalizers and
exactly four groups. -/
theorem applyNorms_four {NS : Type} (applyN : NS → Tens3 → Tens3) (m0 m1 m2 m3 : NS)
    (a b c d : Tens3) :
    applyNorms applyN [m0, m1, m2, m3] [a, b, c, d] =
      Except.ok [applyN m0 a, applyN m1 b, applyN m2 c, applyN m3 d] := rfl

theorem list_len_four {α : Type} {l : List α} (h : l.length = 4) :
    ∃ a b c d, l = [a, b, c, d] := by
  rcases l with _ | ⟨a, l⟩
  · simp at h
  rcases l with _ | ⟨b, l⟩
  · simp at h
  rcases l with _ | ⟨c, l⟩
  · simp at h
  rcases l with _ | ⟨d, l⟩
  · simp at h
  rcases l with _ | ⟨e, l⟩
  · exact ⟨a, b, c, d, rfl⟩
  · simp only [List.length_cons, List.length_nil] at h; omega

/-! ## Claim theorems: fit orchestration -/

/-- Claim C1: when fit with num_tries restarts returns, the loss it
returns is the minimum of the losses returned by the individual restarts
(it is the loss of one of them and no restart loss compares strictly
below it under the float order), the committed parameter state is the
snapshot recorded at a restart that produced that loss, and the returned
loss is a finite rational. -/
theorem fit_commits_minimum {NS S : Type} (statOf : Tens3 → NS)
    (applyN : NS → Tens3 → Tens3) (norms : List NS) (xs : List Tens3)
    (outcomes : List (FVal × S)) (s0 : S) (L : FVal) (st : S)
    (h : fit statOf applyN norms xs outcomes s0 = Except.ok (L, st)) :
    (L, st) ∈ outcomes ∧ (∀ p ∈ outcomes, flt p.1 L = false) ∧
      ∃ q : ℚ, L = FVal.fin q := by
  obtain ⟨hfin, hsel⟩ := fit_ok_elim h
  obtain ⟨hmem, hmin⟩ := selectBest_mem hsel
  exact ⟨hmem, hmin, isfinite_iff.mp hfin⟩

theorem fit_commits_minimum_witness :
    (FVal.fin 2, (1 : Nat)) ∈
        ([(FVal.fin 5, 0), (FVal.fin 2, 1), (FVal.fin 7, 2)] : List (FVal × Nat)) ∧
      (∀ p ∈ ([(FVal.fin 5, 0), (FVal.fin 2, 1), (FVal.fin 7, 2)] : List (FVal × Nat)),
        flt p.1 (FVal.fin 2) = false) ∧
      ∃ q : ℚ, FVal.fin 2 = FVal.fin q :=
  fit_commits_minimum (fun _ => ()) (fun _ t => t) [(), (), (), ()]
    [[], [], [], []] [(FVal.fin 5, 0), (FVal.fin 2, 1), (FVal.fin 7, 2)] 0
    (FVal.fin 2) 1 (by rfl)

/-- Claim C2: fit never returns a non-finite loss: whenever it returns, the
loss is a finite rational; and whenever the input is well-formed (four
normalizers, four groups) and the best loss over all restarts is not
finite, fit raises RuntimeError after the whole restart list has been
folded, returning no partial result. -/
theorem fit_finite_or_runtime_error {NS S : Type} (statOf : Tens3 → NS)
    (applyN : NS → Tens3 → Tens3) (norms : List NS) (xs : List Tens3)
    (outcomes : List (FVal × S)) (s0 : S) :
    (∀ L st, fit statOf applyN norms xs outcomes s0 = Except.ok (L, st) →
      ∃ q : ℚ, L = FVal.fin q) ∧
    (norms.length = 4 → xs.length = 4 → isfinite (selectBest outcomes).1 = false →
      fit statOf applyN norms xs outcomes s0 = Except.error PyErr.runtimeError) := by
  constructor
  · intro L st h
    exact isfinite_iff.mp (fit_ok_elim h).1
  · intro hn hx hbad
    obtain ⟨n0, n1, n2, n3, rfl⟩ := list_len_four hn
    obtain ⟨a, b, c, d, rfl⟩ := list_len_four hx
    simp only [fit, fitNorms_four, applyNorms_four, hbad]
    simp

theorem fit_finite_or_runtime_error_witness :
    fit (fun _ => ()) (fun _ t => t) [(), (), (), ()] [[], [], [], []]
        [(FVal.nan, (0 : Nat))] 0 = Except.error PyErr.runtimeError :=
  (fit_finite_or_runtime_error (fun _ => ()) (fun _ t => t) [(), (), (), ()]
    [[], [], [], []] [(FVal.nan, (0 : Nat))] 0).2 rfl rfl rfl

/-- Claim C10: the constructor builds exactly 4 normalizers; fit with a
hiddens tensor that does not have exactly 4 slices along dimension 2
fails with IndexError in the normalization preamble, whatever the restart
outcomes would have been; with exactly 4 slices the preamble (fitting
normalizers 0 to 3 from groups 0 to 3 and applying the i-th normalizer to
the i-th group) succeeds. -/
theorem fit_requires_four_groups {NS S : Type} (freshN : NS) (statOf : Tens3 → NS)
    (applyN : NS → Tens3 → Tens3) (norms : List NS) (hn : norms.length = 4)
    (xs : List Tens3) (s0 : S) :
    (initNorms freshN).length = 4 ∧
    (xs.length ≠ 4 → ∀ outcomes : List (FVal × S),
      fit statOf applyN norms xs outcomes s0 = Except.error PyErr.indexError) ∧
    (xs.length = 4 →
      ∃ ns ys, fitNorms statOf norms xs = Except.ok ns ∧
        applyNorms applyN ns xs = Except.ok ys) := by
  obtain ⟨n0, n1, n2, n3, rfl⟩ := list_len_four hn
  refine ⟨rfl, ?_, ?_⟩
  · intro hne outcomes
    rcases xs with _ | ⟨a, xs⟩
    · rfl
    rcases xs with _ | ⟨b, xs⟩
    · rfl
    rcases xs with _ | ⟨c, xs⟩
    · rfl
    rcases xs with _ | ⟨d, xs⟩
    · rfl
    rcases xs with _ | ⟨e, xs⟩
    · exact absurd rfl hne
    · have happ : applyNorms applyN [statOf a, statOf b, statOf c, statOf d]
          (a :: b :: c :: d :: e :: xs) = Except.error PyErr.indexError := by
        unfold applyNorms
        rw [List.range_eq_range']
        rfl
      simp only [fit, fitNorms_four, happ]
  · intro hx
    obtain ⟨a, b, c, d, rfl⟩ := list_len_four hx
    exact ⟨_, _, fitNorms_four statOf n0 n1 n2 n3 a b c d [],
      applyNorms_four applyN (statOf a) (statOf b) (statOf c) (statOf d) a b c d⟩

theorem fit_requires_four_groups_witness :
    ((initNorms () : List Unit).length = 4 ∧
      (([([] : Tens3), [], []] : List Tens3).length ≠ 4 →
        ∀ outcomes : List (FVal × Nat),
          fit (fun _ => ()) (fun _ t => t) [(), (), (), ()] [[], [], []] outcomes 0 =
            Except.error PyErr.indexError) ∧
      (([([] : Tens3), [], []] : List Tens3).length = 4 →
        ∃ ns ys, fitNorms (fun _ => ()) [(), (), (), ()] [[], [], []] = Except.ok ns ∧
          applyNorms (fun _ t => t) ns [[], [], []] = Except.ok ys)) :=
  fit_requires_four_groups () (fun _ => ()) (fun _ t => t) [(), (), (), ()] rfl
    [[], [], []] 0

/-! ## Claim theorems: optimization drivers -/

/-- Claim C3 (amended): the Adam driver returns the loss from the final
epoch, which is evaluated at the parameter state reached before the final
optimizer step; when the driver returns, the parameters have had that
final step applied on top of the state at which the returned loss was
evaluated. -/
theorem train_loop_adam_char {S : Type} (lossAt : S → FVal) (stepF : S → S) :
    ∀ (n : Nat) (s : S), 0 < n →
      train_loop_adam lossAt stepF n s =
        (lossAt (stepF^[n - 1] s), stepF (stepF^[n - 1] s)) := by
  intro n
  induction n with
  | zero => intro s h; cases h
  | succ m ih =>
    intro s _
    cases m with
    | zero => simp [train_loop_adam]
    | succ k =>
      have hrec : train_loop_adam lossAt stepF (k + 1 + 1) s =
          train_loop_adam lossAt stepF (k + 1) (stepF s) := rfl
      rw [hrec, ih (stepF s) (Nat.succ_pos k)]
      simp [Function.iterate_succ_apply]

theorem train_loop_adam_char_witness :
    0 < 2 ∧ train_loop_adam FVal.fin (fun q : ℚ => q + 1) 2 0 =
      (FVal.fin ((fun q : ℚ => q + 1)^[2 - 1] 0),
        (fun q : ℚ => q + 1) ((fun q : ℚ => q + 1)^[2 - 1] 0)) :=
  ⟨by decide, train_loop_adam_char FVal.fin (fun q : ℚ => q + 1) 2 0 (by decide)⟩

/-- Claim C3 (counterexample): with one epoch from state 0 and an optimizer
step that moves the state, the Adam driver returns the loss evaluated at
state 0 but leaves the parameters at state 1, so the parameters are not
the state at which the returned loss was evaluated. -/
theorem train_loop_adam_counterexample :
    (train_loop_adam FVal.fin (fun q : ℚ => q + 1) 1 0).1 = FVal.fin 0 ∧
    (train_loop_adam FVal.fin (fun q : ℚ => q + 1) 1 0).2 = 1 ∧
    FVal.fin ((train_loop_adam FVal.fin (fun q : ℚ => q + 1) 1 0).2) ≠
      (train_loop_adam FVal.fin (fun q : ℚ => q + 1) 1 0).1 := by
  have h1 : train_loop_adam FVal.fin (fun q : ℚ => q + 1) 1 0 = (FVal.fin 0, 1) := by
    simp [train_loop_adam]
  refine ⟨by rw [h1], by rw [h1], ?_⟩
  rw [h1]
  intro h
  have h2 : (1 : ℚ) = 0 := FVal.fin.inj h
  norm_num at h2

theorem foldl_add_sum (g : List ℚ → ℚ) : ∀ (l : List (List ℚ)) (init : ℚ),
    l.foldl (fun acc p => acc + g p) init = init + (l.map g).sum := by
  intro l
  induction l with
  | nil => intro init; simp
  | cons p rest ih =>
    intro init
    rw [List.foldl_cons, ih, List.map_cons, List.sum_cons]
    ring

theorem l2Regularizer_eq_spec (wd : ℚ) (params : List (List ℚ)) :
    l2Regularizer wd params = l2PenaltySpec wd params := by
  unfold l2Regularizer l2PenaltySpec
  rw [foldl_add_sum (fun p => wd * sumSq p / 2) params 0]
  ring

/-- Claim C5: every LBFGS closure evaluation returns to the optimizer (and
backpropagates) the loss plus the explicit L2 penalty, the sum over all
parameters of weight_decay times the squared parameter norm divided by 2;
the value the driver returns is the unregularized loss written to the
nonlocal cell by the last closure evaluation, and it differs from the
regularized value whenever the penalty at the last evaluation point is
nonzero. -/
theorem train_loop_lbfgs_returns_unregularized {S : Type} (lossAt : S → ℚ) (wd : ℚ)
    (paramsOf : S → List (List ℚ)) (s0 : S) (states : List S) :
    (∀ s : S, (lbfgsClosure lossAt wd paramsOf s).2 =
        lossAt s + l2PenaltySpec wd (paramsOf s)) ∧
    train_loop_lbfgs lossAt wd paramsOf (states ++ [s0]) = FVal.fin (lossAt s0) ∧
    (l2PenaltySpec wd (paramsOf s0) ≠ 0 →
      train_loop_lbfgs lossAt wd paramsOf (states ++ [s0]) ≠
        FVal.fin ((lbfgsClosure lossAt wd paramsOf s0).2)) := by
  have hrun : train_loop_lbfgs lossAt wd paramsOf (states ++ [s0]) =
      FVal.fin (lossAt s0) := by
    simp [train_loop_lbfgs, List.foldl_append, lbfgsClosure]
  refine ⟨?_, hrun, ?_⟩
  · intro s
    simp only [lbfgsClosure]
    rw [l2Regularizer_eq_spec]
  · intro hpen heq
    rw [hrun] at heq
    simp only [lbfgsClosure] at heq
    have h2 : lossAt s0 = lossAt s0 + l2Regularizer wd (paramsOf s0) :=
      FVal.fin.inj heq
    rw [l2Regularizer_eq_spec] at h2
    have h3 : l2PenaltySpec wd (paramsOf s0) = 0 := by linarith
    exact hpen h3

theorem train_loop_lbfgs_returns_unregularized_witness :
    train_loop_lbfgs (fun q : ℚ => q) 2 (fun s => [[s]]) ([] ++ [(3 : ℚ)]) ≠
      FVal.fin ((lbfgsClosure (fun q : ℚ => q) 2 (fun s => [[s]]) 3).2) :=
  (train_loop_lbfgs_returns_unregularized (fun q : ℚ => q) 2 (fun s => [[s]]) 3
    []).2.2 (by norm_num [l2PenaltySpec, sumSq])

theorem mapM_forwardPy_ok {T T2 : Type} (normF : T → T) (probeSq : T → T2) :
    ∀ xs : List T, xs.mapM (fun x => forwardPy normF probeSq (PyV.tensor x)) =
      Except.ok (xs.map (fun x => probeSq (normF x))) := by
  intro xs
  induction xs with
  | nil => rfl
  | cons a l ih =>
    rw [List.mapM_cons, ih]
    rfl

/-- Claim C4 (code bug evidence): per loss evaluation, the multi-group
Adam driver applies forward to the whole Python list of group tensors, so
the projector module raises TypeError and the shared loss function is
never evaluated; the multi-group LBFGS driver evaluates the shared loss
function on forward applied separately to each group tensor. -/
theorem trainm_drivers_not_interchangeable {T T2 R : Type} (normF : T → T)
    (probeSq : T → T2) (lossmPy : PyV T2 → Except PyErr R) (xs : List T) :
    trainmAdamEpochLoss normF probeSq lossmPy xs = Except.error PyErr.typeError ∧
    trainmLbfgsClosureLoss normF probeSq lossmPy xs =
      lossmPy (PyV.pylist (xs.map (fun x => probeSq (normF x)))) := by
  constructor
  · rfl
  · unfold trainmLbfgsClosureLoss
    rw [mapM_forwardPy_ok]

/-! ## Claim theorems: Platt parameters and label contract -/

/-- Claim C9: the Platt scaling parameters bias and scale are never read
by the forward pass or by either loss composition path: holding the other
parameters fixed, forward and both driver loss evaluations are identical
under any two assignments to bias and scale, and the forward output is
the probe applied to the projected input with the trailing singleton
dimension squeezed. -/
theorem platt_params_unused {P N NS : Type} (normF : N → Tens3 → Tens3)
    (probeF : P → Tens3 → Tens3) (alpha : ℚ) (sig : ℚ → ℚ)
    (bceF : List ℚ → List ℚ → ℚ) (unsupF : Mat → Mat → ℚ) (unsupmF : List Mat → ℚ)
    (b1 s1 b2 s2 : ℚ) (nr : List NS) (np : N) (pp : P) (x xneg xpos : Tens3)
    (xss : List Tens3) (labels : Option (List ℚ)) :
    forward normF probeF (CcsParams.mk b1 s1 nr np pp) x =
      forward normF probeF (CcsParams.mk b2 s2 nr np pp) x ∧
    forward normF probeF (CcsParams.mk b1 s1 nr np pp) x =
      (probeF pp (normF np x)).map (fun m => m.map (fun r => r.getD 0 0)) ∧
    lossOnForward alpha sig bceF unsupF normF probeF (CcsParams.mk b1 s1 nr np pp)
        xneg xpos labels =
      lossOnForward alpha sig bceF unsupF normF probeF (CcsParams.mk b2 s2 nr np pp)
        xneg xpos labels ∧
    lossmOnForward alpha sig bceF unsupmF normF probeF (CcsParams.mk b1 s1 nr np pp)
        xss labels =
      lossmOnForward alpha sig bceF unsupmF normF probeF (CcsParams.mk b2 s2 nr np pp)
        xss labels :=
  ⟨rfl, rfl, rfl, rfl⟩

/-- Claim C7: without labels, both loss entry points raise ValueError
whenever the supervised weight is positive, and return the unsupervised
loss when the supervised weight is zero, for every configuration of logit
shapes. -/
theorem loss_requires_labels (alpha : ℚ) (sig : ℚ → ℚ) (bceF : List ℚ → List ℚ → ℚ)
    (unsupF : Mat → Mat → ℚ) (unsupmF : List Mat → ℚ) (logit0 logit1 : Mat)
    (logits : List Mat) :
    (0 < alpha →
      loss alpha sig bceF unsupF logit0 logit1 none = Except.error PyErr.valueError ∧
      lossm alpha sig bceF unsupmF logits none = Except.error PyErr.valueError) ∧
    (alpha = 0 →
      loss alpha sig bceF unsupF logit0 logit1 none = Except.ok (unsupF logit0 logit1) ∧
      lossm alpha sig bceF unsupmF logits none = Except.ok (unsupmF logits)) := by
  constructor
  · intro h
    constructor
    · simp [loss, h]
    · simp [lossm, h]
  · intro h
    subst h
    constructor
    · simp [loss]
    · simp [lossm]

theorem loss_requires_labels_witness :
    (loss 1 (fun q => q) (fun _ _ => 0) (fun _ _ => (5 : ℚ)) [[1]] [[2]] none =
        Except.error PyErr.valueError) ∧
    (loss 0 (fun q => q) (fun _ _ => 0) (fun _ _ => (5 : ℚ)) [[1]] [[2]] none =
        Except.ok 5) :=
  ⟨((loss_requires_labels 1 (fun q => q) (fun _ _ => 0) (fun _ _ => (5 : ℚ))
      (fun _ => 0) [[1]] [[2]] []).1 (by norm_num)).1,
   ((loss_requires_labels 0 (fun q => q) (fun _ _ => 0) (fun _ _ => (5 : ℚ))
      (fun _ => 0) [[1]] [[2]] []).2 rfl).1⟩

/-! ## Claim theorems: separability diagnostic -/

/-- Claim C8: check_separability returns exactly one half whenever the
classifier predictions on the flattened projected validation vectors are
identically zero, without raising on that edge case; otherwise it returns
the AUROC of those predictions against the validation pseudo-labels, and
that value lies in [0, 1] whenever the external AUROC metric does. -/
theorem check_separability_spec {C : Type} (normF : Tens3 → Tens3)
    (clfFit : Mat → List ℚ → ℚ → C) (clfApply : C → Mat → Mat)
    (aucF : List ℚ → List ℚ → ℚ) (wd : ℚ) (x0 x1 vx0 vx1 : Tens3) :
    ((∀ p ∈ pseudoPredsOf normF clfFit clfApply wd x0 x1 vx0 vx1, p = 0) →
      check_separability normF clfFit clfApply aucF wd x0 x1 vx0 vx1 = 1 / 2) ∧
    ((∃ p ∈ pseudoPredsOf normF clfFit clfApply wd x0 x1 vx0 vx1, p ≠ 0) →
      check_separability normF clfFit clfApply aucF wd x0 x1 vx0 vx1 =
        aucF (pseudoLabels (normF vx0) (normF vx1))
          (pseudoPredsOf normF clfFit clfApply wd x0 x1 vx0 vx1)) ∧
    ((∀ a b, 0 ≤ aucF a b ∧ aucF a b ≤ 1) →
      0 ≤ check_separability normF clfFit clfApply aucF wd x0 x1 vx0 vx1 ∧
      check_separability normF clfFit clfApply aucF wd x0 x1 vx0 vx1 ≤ 1) := by
  refine ⟨?_, ?_, ?_⟩
  · intro hall
    have hany : (pseudoPredsOf normF clfFit clfApply wd x0 x1 vx0 vx1).any
        (fun p => p != 0) = false := by
      rw [List.any_eq_false]
      intro p hp
      simp [hall p hp]
    simp [check_separability, hany]
  · intro hex
    obtain ⟨p, hp, hne⟩ := hex
    have hany : (pseudoPredsOf normF clfFit clfApply wd x0 x1 vx0 vx1).any
        (fun p => p != 0) = true := by
      rw [List.any_eq_true]
      exact ⟨p, hp, by simpa using hne⟩
    simp [check_separability, hany]
  · intro hb
    by_cases hany : (pseudoPredsOf normF clfFit clfApply wd x0 x1 vx0 vx1).any
        (fun p => p != 0) = true
    · have hres : check_separability normF clfFit clfApply aucF wd x0 x1 vx0 vx1 =
          aucF (pseudoLabels (normF vx0) (normF vx1))
            (pseudoPredsOf normF clfFit clfApply wd x0 x1 vx0 vx1) := by
        simp [check_separability, hany]
      rw [hres]
      exact hb _ _
    · have hany2 : (pseudoPredsOf normF clfFit clfApply wd x0 x1 vx0 vx1).any
          (fun p => p != 0) = false := by simpa using hany
      have hres : check_separability normF clfFit clfApply aucF wd x0 x1 vx0 vx1 =
          1 / 2 := by
        simp [check_separability, hany2]
      rw [hres]
      norm_num

theorem check_separability_spec_witness :
    check_separability (fun t => t) (fun _ _ _ => ()) (fun _ _ => ([] : Mat))
      (fun _ _ => 0) 1 [] [] [] [] = 1 / 2 :=
  (check_separability_spec (fun t => t) (fun _ _ _ => ()) (fun _ _ => ([] : Mat))
    (fun _ _ => 0) 1 [] [] [] []).1
    (by intro p hp; simp [pseudoPredsOf] at hp)

/-! ## Entry and shape lemmas for the loss composition claim -/

theorem zip2_getD (f : ℚ → ℚ → ℚ) (a q : Mat) (i j : Nat)
    (hia : i < a.length) (hiq : i < q.length)
    (hja : j < (a.getD i []).length) (hjq : j < (q.getD i []).length) :
    ((List.zipWith (List.zipWith f) a q).getD i []).getD j 0 =
      f ((a.getD i []).getD j 0) ((q.getD i []).getD j 0) := by
  have hlen : i < (List.zipWith (List.zipWith f) a q).length := by
    rw [List.length_zipWith]
    exact lt_min hia hiq
  rw [List.getD_eq_getElem _ _ hlen, List.getElem_zipWith]
  rw [List.getD_eq_getElem a [] hia] at hja ⊢
  rw [List.getD_eq_getElem q [] hiq] at hjq ⊢
  have hj2 : j < (List.zipWith f a[i] q[i]).length := by
    rw [List.length_zipWith]
    exact lt_min hja hjq
  rw [List.getD_eq_getElem _ _ hj2, List.getElem_zipWith,
    List.getD_eq_getElem _ _ hja, List.getD_eq_getElem _ _ hjq]

theorem Rect.zip2 {f : ℚ → ℚ → ℚ} {a q : Mat} {n v : Nat}
    (ha : Rect a n v) (hq : Rect q n v) :
    Rect (List.zipWith (List.zipWith f) a q) n v := by
  obtain ⟨hal, har⟩ := ha
  obtain ⟨hql, hqr⟩ := hq
  constructor
  · rw [List.length_zipWith, hal, hql, min_self]
  · intro i hi
    have hia : i < a.length := by rw [hal]; exact hi
    have hiq : i < q.length := by rw [hql]; exact hi
    have hlen : i < (List.zipWith (List.zipWith f) a q).length := by
      rw [List.length_zipWith, hal, hql, min_self]; exact hi
    rw [List.getD_eq_getElem _ _ hlen, List.getElem_zipWith, List.length_zipWith]
    have h1 : a[i].length = v := by
      rw [← List.getD_eq_getElem a [] hia]; exact har i hi
    have h2 : q[i].length = v := by
      rw [← List.getD_eq_getElem q [] hiq]; exact hqr i hi
    rw [h1, h2, min_self]

theorem Rect.sigmoid {m : Mat} {n v : Nat} (sig : ℚ → ℚ) (h : Rect m n v) :
    Rect (sigmoidMat sig m) n v := by
  obtain ⟨hl, hr⟩ := h
  refine ⟨by simp [sigmoidMat, hl], ?_⟩
  intro i hi
  have him : i < m.length := by rw [hl]; exact hi
  have hmap : i < (sigmoidMat sig m).length := by
    simpa [sigmoidMat, hl] using hi
  rw [List.getD_eq_getElem _ _ hmap]
  have he : (sigmoidMat sig m)[i] = List.map sig m[i] := by
    simp [sigmoidMat]
  rw [he, List.length_map]
  rw [← List.getD_eq_getElem m [] him]
  exact hr i hi

theorem Rect.take {m : Mat} {n v k : Nat} (h : Rect m n v) (hk : k ≤ n) :
    Rect (m.take k) k v := by
  obtain ⟨hl, hr⟩ := h
  have hlt : (m.take k).length = k := by
    rw [List.length_take, hl]
    exact Nat.min_eq_left hk
  refine ⟨hlt, ?_⟩
  intro i hi
  have him : i < m.length := by rw [hl]; exact lt_of_lt_of_le hi hk
  have htk : i < (m.take k).length := by rw [hlt]; exact hi
  rw [List.getD_eq_getElem _ _ htk, List.getElem_take]
  rw [← List.getD_eq_getElem m [] him]
  exact hr i (lt_of_lt_of_le hi hk)

theorem rect_stackMax_fold : ∀ (rest : List Mat) (acc : Mat) {n v : Nat},
    Rect acc n v → (∀ lg ∈ rest, Rect lg n v) →
    Rect (rest.foldl (fun a q => List.zipWith (List.zipWith max) a q) acc) n v := by
  intro rest
  induction rest with
  | nil => intro acc n v ha _; exact ha
  | cons q rest ih =>
    intro acc n v ha hall
    simp only [List.foldl_cons]
    exact ih _ (Rect.zip2 ha (hall q (by simp))) (fun lg hlg => hall lg (by simp [hlg]))

theorem stackMax_fold_entry : ∀ (rest : List Mat) (acc : Mat) {n v : Nat} (i j : Nat),
    Rect acc n v → (∀ lg ∈ rest, Rect lg n v) → i < n → j < v →
    ((rest.foldl (fun a q => List.zipWith (List.zipWith max) a q) acc).getD i []).getD j 0 =
      listMaxD ((acc.getD i []).getD j 0) (rest.map (fun lg => (lg.getD i []).getD j 0)) := by
  intro rest
  induction rest with
  | nil => intro acc n v i j _ _ _ _; rfl
  | cons q rest ih =>
    intro acc n v i j ha hall hi hj
    have hq : Rect q n v := hall q (by simp)
    simp only [List.foldl_cons]
    rw [ih _ i j (Rect.zip2 ha hq) (fun lg hlg => hall lg (by simp [hlg])) hi hj]
    have hent : ((List.zipWith (List.zipWith max) acc q).getD i []).getD j 0 =
        max ((acc.getD i []).getD j 0) ((q.getD i []).getD j 0) := by
      apply zip2_getD
      · rw [ha.1]; exact hi
      · rw [hq.1]; exact hi
      · rw [ha.2 i hi]; exact hj
      · rw [hq.2 i hi]; exact hj
    rw [hent]
    rfl

theorem consensusPair_eq (sig : ℚ → ℚ) (A B : Mat) :
    List.zipWith (List.zipWith (fun a b => (a + (1 - b)) * (1 / 2)))
        (sigmoidMat sig A) (sigmoidMat sig B) = consensusPair sig A B := by
  simp only [sigmoidMat, consensusPair, List.zipWith_map, mul_one_div]

theorem sig_take_entry (sig : ℚ → ℚ) {m : Mat} {n v : Nat} (k : Nat) (h : Rect m n v)
    (hk : k ≤ n) (i j : Nat) (hi : i < k) (hj : j < v) :
    ((sigmoidMat sig (m.take k)).getD i []).getD j 0 =
      sig ((m.getD i []).getD j 0) := by
  have hrt : Rect (m.take k) k v := Rect.take h hk
  have him : i < m.length := by rw [h.1]; exact lt_of_lt_of_le hi hk
  have htk : i < (m.take k).length := by rw [hrt.1]; exact hi
  have hsg : i < (sigmoidMat sig (m.take k)).length := by
    simpa [sigmoidMat] using htk
  rw [List.getD_eq_getElem _ _ hsg]
  have h1 : (sigmoidMat sig (m.take k))[i] = List.map sig (m.take k)[i] := by
    simp [sigmoidMat]
  rw [h1, List.getElem_take]
  have hrow : m[i].length = v := by
    have h2 := h.2 i (lt_of_lt_of_le hi hk)
    rw [List.getD_eq_getElem m [] him] at h2
    exact h2
  have hjm : j < (List.map sig m[i]).length := by
    rw [List.length_map, hrow]; exact hj
  have hjm2 : j < m[i].length := by rw [hrow]; exact hj
  rw [List.getD_eq_getElem _ _ hjm, List.getElem_map]
  rw [List.getD_eq_getElem m [] him]
  rw [List.getD_eq_getElem _ _ hjm2]

/-- Claim C6: with labels supplied, both loss composers return
alpha times the binary cross-entropy plus (1 - alpha) times the
unsupervised loss, where the cross-entropy is taken between the flattened
consensus predictions and the labels broadcast across the trailing
variant dimension: the two-group consensus is the elementwise mean of p0
and (1 - p1), and the multi-group consensus is the elementwise maximum
across the groups of the sigmoid probabilities. -/
theorem loss_composition (alpha : ℚ) (sig : ℚ → ℚ) (bceF : List ℚ → List ℚ → ℚ)
    (unsupF : Mat → Mat → ℚ) (unsupmF : List Mat → ℚ) (ys : List ℚ)
    (logit0 logit1 l0 : Mat) (rest : List Mat) (n v : Nat) :
    (Rect logit0 n v → Rect logit1 n v → 0 < ys.length → ys.length ≤ n → v ≠ 1 →
      loss alpha sig bceF unsupF logit0 logit1 (some ys) =
        Except.ok (alpha * bceF
            (consensusPair sig (logit0.take ys.length) (logit1.take ys.length)).flatten
            (broadcastAcrossVariants v ys) +
          (1 - alpha) * unsupF logit0 logit1)) ∧
    ((∀ lg ∈ l0 :: rest, Rect lg n v) → 0 < ys.length → ys.length ≤ n → 0 < v →
      (lossm alpha sig bceF unsupmF (l0 :: rest) (some ys) =
        Except.ok (alpha * bceF
            (stackMax ((l0 :: rest).map
              (fun lg => sigmoidMat sig (lg.take ys.length)))).flatten
            (broadcastAcrossVariants v ys) +
          (1 - alpha) * unsupmF (l0 :: rest)) ∧
      Rect (stackMax ((l0 :: rest).map (fun lg => sigmoidMat sig (lg.take ys.length))))
        ys.length v ∧
      ∀ i j, i < ys.length → j < v →
        (((stackMax ((l0 :: rest).map
            (fun lg => sigmoidMat sig (lg.take ys.length)))).getD i []).getD j 0) =
          listMaxD (sig ((l0.getD i []).getD j 0))
            (rest.map (fun lg => sig ((lg.getD i []).getD j 0))))) := by
  constructor
  · intro h0 h1 hk hkn hv
    have hass : ¬ (logit0.length < ys.length) := by
      rw [h0.1]; omega
    have hcp := consensusPair_eq sig (logit0.take ys.length) (logit1.take ys.length)
    have hrect : Rect (consensusPair sig (logit0.take ys.length)
        (logit1.take ys.length)) ys.length v :=
      Rect.zip2 (Rect.take h0 hkn) (Rect.take h1 hkn)
    have hdim : lastDimLen (consensusPair sig (logit0.take ys.length)
        (logit1.take ys.length)) = v := by
      unfold lastDimLen
      exact hrect.2 0 hk
    simp only [loss]
    rw [if_neg hass, hcp, hdim, if_neg hv]
    rfl
  · intro hall hk hkn hv
    have hl0 : Rect l0 n v := hall l0 (by simp)
    have hass : ¬ (l0.length < ys.length) := by rw [hl0.1]; omega
    have haccr : Rect (sigmoidMat sig (l0.take ys.length)) ys.length v :=
      Rect.sigmoid sig (Rect.take hl0 hkn)
    have htailr : ∀ p ∈ rest.map (fun lg => sigmoidMat sig (lg.take ys.length)),
        Rect p ys.length v := by
      intro p hp
      obtain ⟨lg, hlg, rfl⟩ := List.mem_map.mp hp
      exact Rect.sigmoid sig (Rect.take (hall lg (by simp [hlg])) hkn)
    have hsm : stackMax ((l0 :: rest).map
        (fun lg => sigmoidMat sig (lg.take ys.length))) =
        (rest.map (fun lg => sigmoidMat sig (lg.take ys.length))).foldl
          (fun a q => List.zipWith (List.zipWith max) a q)
          (sigmoidMat sig (l0.take ys.length)) := rfl
    have hrect : Rect (stackMax ((l0 :: rest).map
        (fun lg => sigmoidMat sig (lg.take ys.length)))) ys.length v := by
      rw [hsm]
      exact rect_stackMax_fold _ _ haccr htailr
    have hdim : lastDimLen (stackMax ((l0 :: rest).map
        (fun lg => sigmoidMat sig (lg.take ys.length)))) = v := by
      unfold lastDimLen
      exact hrect.2 0 hk
    refine ⟨?_, hrect, ?_⟩
    · simp only [lossm]
      rw [if_neg hass, hdim]
      rfl
    · intro i j hi hj
      rw [hsm]
      rw [stackMax_fold_entry _ _ i j haccr htailr hi hj]
      rw [sig_take_entry sig ys.length hl0 hkn i j hi hj]
      rw [List.map_map]
      congr 1
      apply List.map_congr_left
      intro lg hlg
      exact sig_take_entry sig ys.length (hall lg (by simp [hlg])) hkn i j hi hj

theorem loss_composition_witness :
    loss (1 / 2) (fun q => q) (fun a b => a.sum + b.sum) (fun _ _ => (3 : ℚ))
      [[1, 2]] [[3, 4]] (some [1]) = Except.ok 2 := by
  have h := (loss_composition (1 / 2) (fun q => q) (fun a b => a.sum + b.sum)
    (fun _ _ => (3 : ℚ)) (fun _ => 0) [1] [[1, 2]] [[3, 4]] [] [] 1 2).1
    (by decide) (by decide) (by decide) (by decide) (by decide)
  rw [h]
  norm_num [consensusPair, broadcastAcrossVariants]

end CcsEmbed
